import Mathlib

/-
Verification development for the core of `pho` (an image viewer), from
`src/pho.c`.  The development shallowly embeds:

  * `RotateImage` (pho.c:550-657) at the pixel level: flat sample arrays
    addressed through independent row strides, written by the same
    x/y/channel loop nest as the C code;
  * `ScaleAndRotate` (pho.c:218-448) together with `ScaleToFit`
    (pho.c:190-202) and `LoadImageFromFile` (pho.c:67-114) at the
    geometry level (image dimensions, rotation state); pixel contents do
    not influence any of the control flow there.  External effects
    (gdk_pixbuf decode / scale / allocation) are supplied as an
    environment record, so that failure paths are represented;
  * `ReallyDelete` (pho.c:481-532) and `NextImage` (pho.c:151-165) over a
    pointer heap: addresses are naturals, every record has nullable
    `next`/`prev` fields, and the circular list is described by an
    explicit address list;
  * the slideshow timer logic of `ShowImage`/`DelayTimer` (pho.c:41-65)
    as a small transition system.

Machine integers are modelled as unbounded `Int` (the C code never gets
near 2^31 in the scenarios covered), C `double` arithmetic is modelled
exactly over `ℚ` with explicit truncation toward zero at every
double-to-int assignment, and C `%` agrees with `Int.emod` on the
nonnegative operands produced by the `(x + 360) % 360` idiom.
-/

/-! ## Pixel-level model of RotateImage (pho.c:550-657) -/

/-- A gdk_pixbuf: width/height/channel count, a row stride (which the C
code does not assume equal to `width * nchannels`), and the flat sample
array, modelled as a total function from byte offsets to sample values. -/
structure Pixbuf where
  width : Nat
  height : Nat
  nchannels : Nat
  rowstride : Nat
  pixels : Nat → Nat

/-- Row stride chosen by `gdk_pixbuf_new` for 8-bit samples: rows are
aligned to 4-byte boundaries. -/
def gdkRowstride (w nc : Nat) : Nat := 4 * ((w * nc + 3) / 4)

/-- Flat offset of channel `i` of pixel `(x, y)` in buffer `b`, exactly the
index expression `y*rowstride + x*nchannels + i` of the C copy loop. -/
def srcIndex (b : Pixbuf) (x y i : Nat) : Nat :=
  y * b.rowstride + x * b.nchannels + i

/-- Destination coordinates `(newx, newy)` for source pixel `(x, y)`,
from the `switch (degrees)` in pho.c:611-628 (`w`/`h` are the source
`curWidth`/`curHeight`).  Callers only use degrees 90, 270, 180. -/
def rotCoord (degrees w h x y : Nat) : Nat × Nat :=
  if degrees = 90 then (h - y - 1, x)
  else if degrees = 270 then (y, w - x - 1)
  else (w - x - 1, h - y - 1)

/-- Flat destination offset for source pixel `(x, y)`, channel `i`:
`newy*newrowstride + newx*nchannels + i` (pho.c:640). -/
def destIndex (degrees : Nat) (b : Pixbuf) (newRS x y i : Nat) : Nat :=
  (rotCoord degrees b.width b.height x y).2 * newRS +
    (rotCoord degrees b.width b.height x y).1 * b.nchannels + i

/-- The sequence of writes performed by the rotation loop nest
(pho.c:605-644): `x` outermost, then `y`, then the channel `i`;
each write carries its destination offset and the copied sample. -/
def RotateWrites (degrees : Nat) (b : Pixbuf) (newRS : Nat) :
    List (Nat × Nat) :=
  (List.range b.width).flatMap fun x =>
    (List.range b.height).flatMap fun y =>
      (List.range b.nchannels).map fun i =>
        (destIndex degrees b newRS x y i, b.pixels (srcIndex b x y i))

/-- Replay a list of (offset, value) writes onto a flat sample array. -/
def applyWrites (f : Nat → Nat) : List (Nat × Nat) → Nat → Nat
  | [] => f
  | (k, v) :: t => applyWrites (Function.update f k v) t

/-- RotateImage (pho.c:550-657) at the pixel level, for an image whose
record dimensions agree with the buffer (the loop bounds come from
`img->curWidth/curHeight`, which equal the buffer dimensions whenever the
record is consistent).  Degrees are first normalized into [0,360); 0 is a
no-op, a value outside {90,180,270} hits the `default:` error return
(`none`).  The new buffer is freshly allocated with its own gdk row
stride; samples never written keep the allocator's contents, modelled as
0. -/
def RotateImage (b : Pixbuf) (degrees : Int) : Option Pixbuf :=
  let d := ((degrees + 360) % 360).toNat
  if d = 0 then some b
  else if d = 90 ∨ d = 270 ∨ d = 180 then
    let nW := if d = 180 then b.width else b.height
    let nH := if d = 180 then b.height else b.width
    let nRS := gdkRowstride nW b.nchannels
    some ⟨nW, nH, b.nchannels, nRS,
      applyWrites (fun _ => 0) (RotateWrites d b nRS)⟩
  else none

/-- Total wrapper around `RotateImage` for the always-successful degree
values; used to state composition properties. -/
def rotP (b : Pixbuf) (degrees : Int) : Pixbuf :=
  (RotateImage b degrees).getD b

/-! ## Geometry-level model of ScaleAndRotate (pho.c:218-448) -/

/-- The mutable fields of a `PhoImage` record that the transform pipeline
reads and writes (pho.h is not part of the sources; fields are those used
by pho.c). -/
structure PhoImg where
  trueWidth : Int
  trueHeight : Int
  curWidth : Int
  curHeight : Int
  curRot : Int
  exifRot : Int
deriving DecidableEq

/-- Dimensions of the one live GdkPixbuf (`gImage`); at the geometry
level only its size matters. -/
structure GPix where
  width : Int
  height : Int
deriving DecidableEq

/-- Scale-mode constants (the enum lives in pho.h, which is not under
src/; only equality between the constants matters, so arbitrary distinct
values are used). -/
def PHO_SCALE_NORMAL : Int := 0
def PHO_SCALE_FULLSIZE : Int := 1
def PHO_SCALE_FULLSCREEN : Int := 2
def PHO_SCALE_SCREEN_RATIO : Int := 3
def PHO_SCALE_IMG_RATIO : Int := 4
def PHO_DISPLAY_NORMAL : Int := 0
def PHO_DISPLAY_PRESENTATION : Int := 1

/-- The globals and external collaborators `ScaleAndRotate` consults:
scale mode/ratio, monitor and (presentation-mode) window geometry, the
decoder's result for this record's file (`gdk_pixbuf_new_from_file`),
the EXIF orientation, and oracles for `gdk_pixbuf_scale_simple` (which
may fail or return a buffer with bogus dimensions) and for the
`gdk_pixbuf_new` allocation inside RotateImage. -/
structure SREnv where
  scaleMode : Int
  scaleRatio : ℚ
  monW : Int
  monH : Int
  displayMode : Int
  winW : Int
  winH : Int
  fileW : Int
  fileH : Int
  exif : Int
  scaleOk : Int → Int → Option GPix
  allocOk : Int → Int → Bool

/-- C double-to-int conversion: truncation toward zero, on exact `ℚ`
arithmetic. -/
def truncQ (q : ℚ) : Int := if q < 0 then -⌊-q⌋ else ⌊q⌋

/-- ScaleToFit (pho.c:190-202): shrink `(w, h)` uniformly so that the more
constrained axis just fits `(maxW, maxH)`; each double-to-int store
truncates. -/
def ScaleToFit (w h maxW maxH : Int) : Int × Int :=
  let xratio : ℚ := (maxW : ℚ) / (w : ℚ)
  let yratio : ℚ := (maxH : ℚ) / (h : ℚ)
  let ratio : ℚ := if xratio > yratio then yratio else xratio
  (truncQ (ratio * (w : ℚ)), truncQ (ratio * (h : ℚ)))

/-- LoadImageFromFile (pho.c:67-114): decode the record's file (modelled
as always succeeding with the environment's dimensions), install the
decoded buffer, set `curWidth/curHeight` from it, and on the very first
load also capture `trueWidth/trueHeight` and the EXIF rotation. -/
def LoadImageFromFile (env : SREnv) (img : PhoImg) : PhoImg × GPix :=
  let img1 : PhoImg :=
    { img with curWidth := env.fileW, curHeight := env.fileH }
  let img2 : PhoImg :=
    if img1.trueWidth = 0 ∨ img1.trueHeight = 0 then
      { img1 with trueWidth := env.fileW, trueHeight := env.fileH,
                  exifRot := env.exif }
    else img1
  (img2, ⟨env.fileW, env.fileH⟩)

/-- The target-size computation of ScaleAndRotate (pho.c:253-343) on the
(possibly axis-swapped) working copies of true/current dimensions.  The
`FULLSCREEN` branch's `diffx/diffy` conditional (pho.c:324-328) only makes
assignments that are overwritten unconditionally a few lines later (the
`XXX these get overwritten` comment in the C), so it has no effect and is
omitted. -/
def ComputeTargetSize (env : SREnv) (tw th cw ch : Int) : Int × Int :=
  if env.scaleMode = PHO_SCALE_FULLSIZE then (tw, th)
  else if env.scaleMode = PHO_SCALE_NORMAL ∨
          env.scaleMode = PHO_SCALE_SCREEN_RATIO then
    let p : Int × Int :=
      if tw > env.monW ∨ th > env.monH then ScaleToFit tw th env.monW env.monH
      else (tw, th)
    let nw := truncQ ((p.1 : ℚ) * env.scaleRatio)
    let nh := truncQ ((p.2 : ℚ) * env.scaleRatio)
    if |cw - nw| + |ch - nh| < 5 then (cw, ch) else (nw, nh)
  else if env.scaleMode = PHO_SCALE_IMG_RATIO then
    let nw := truncQ ((tw : ℚ) * env.scaleRatio)
    let nh := truncQ ((th : ℚ) * env.scaleRatio)
    if |cw - nw| + |ch - nh| < 5 then (cw, ch) else (nw, nh)
  else if env.scaleMode = PHO_SCALE_FULLSCREEN then
    let sw := if env.displayMode = PHO_DISPLAY_PRESENTATION then env.winW
              else env.monW
    let sh := if env.displayMode = PHO_DISPLAY_PRESENTATION then env.winH
              else env.monH
    let xr : ℚ := (sw : ℚ) / (tw : ℚ)
    let yr : ℚ := (sh : ℚ) / (th : ℚ)
    let r : ℚ := if xr > yr then yr else xr
    (truncQ (r * (tw : ℚ)), truncQ (r * (th : ℚ)))
  else (cw, ch)

/-- RotateImage at the geometry level (pho.c:550-657): dimension and
rotation-state effects of a successful rotation, with the allocation
failure (`gdk_pixbuf_new` returning NULL, pho.c:601) and the illegal
rotation value (pho.c:625-627) both leaving every field untouched.
The new buffer's dimensions are computed from the record fields, exactly
as in the C (pho.c:571-584, 599-600). -/
def RotateImageDim (env : SREnv) (img : PhoImg) (pix : GPix)
    (degrees : Int) : PhoImg × GPix × Bool :=
  let d := (degrees + 360) % 360
  if d = 0 then (img, pix, true)
  else if d = 90 ∨ d = 270 then
    if env.allocOk img.curHeight img.curWidth then
      ({ img with
          curWidth := img.curHeight, curHeight := img.curWidth,
          trueWidth := img.trueHeight, trueHeight := img.trueWidth,
          curRot := (img.curRot + d + 360) % 360 },
        ⟨img.curHeight, img.curWidth⟩, true)
    else (img, pix, false)
  else if d = 180 then
    if env.allocOk img.curWidth img.curHeight then
      ({ img with curRot := (img.curRot + d + 360) % 360 },
        ⟨img.curWidth, img.curHeight⟩, true)
    else (img, pix, false)
  else (img, pix, false)

/-- The working state of one `ScaleAndRotate` call after target
computation: the record and live buffer, the local (frame-adjusted)
copies `true_width/true_height/cur_width/cur_height`, the computed target
`new_width/new_height`, the normalized pending `degrees`, the
`aspect_changing` flag, and whether the upscale-reload path ran. -/
structure SRMid where
  img : PhoImg
  pix : GPix
  tw : Int
  th : Int
  cw : Int
  ch : Int
  nw : Int
  nh : Int
  degrees : Int
  aspect : Bool
  reloaded : Bool
deriving DecidableEq

/-- Result of one `ScaleAndRotate` call: final record and buffer, whether
the upscale-reload ran, and whether the scaling step failed (the
`Prompt("Couldn't scale up...")` early return, pho.c:415-422). -/
structure SRResult where
  img : PhoImg
  pix : GPix
  reloaded : Bool
  failed : Bool
deriving DecidableEq

/-- Lines 220-248 and 253-343 of pho.c: normalize degrees, compute
`aspect_changing`, load the image on first view (the local working copies
were captured before the load, exactly as in the C), swap the working
copies when the aspect is changing, and compute the target size. -/
def srPhase1 (env : SREnv) (img0 : PhoImg) (pix0 : GPix) (deg0 : Int) :
    SRMid :=
  let degrees := (deg0 + 360) % 360
  let aspect : Bool := decide (degrees % 180 ≠ 0)
  let tw0 := img0.trueWidth
  let th0 := img0.trueHeight
  let cw0 := img0.curWidth
  let ch0 := img0.curHeight
  let loaded : PhoImg × GPix :=
    if tw0 = 0 ∨ th0 = 0 then LoadImageFromFile env img0 else (img0, pix0)
  let tw := if aspect then th0 else tw0
  let th := if aspect then tw0 else th0
  let cw := if aspect then ch0 else cw0
  let ch := if aspect then cw0 else ch0
  let t := ComputeTargetSize env tw th cw ch
  ⟨loaded.1, loaded.2, tw, th, cw, ch, t.1, t.2, degrees, aspect, false⟩

/-- The upscale-reload trigger (pho.c:351-352): the target exceeds the
current working size on some axis, and the current working size is
strictly below the true working size on both axes. -/
def reloadCond (m : SRMid) : Prop :=
  (m.nw > m.cw ∨ m.nh > m.ch) ∧ (m.cw < m.tw ∧ m.ch < m.th)

instance (m : SRMid) : Decidable (reloadCond m) := by
  unfold reloadCond; infer_instance

/-- The upscale-reload block (pho.c:350-380): fold the pending rotation
into an absolute one, clear `curRot`, reload from file, and recompute the
working copies and `trueWidth/trueHeight` from the fresh decode, swapped
when the new absolute rotation changes aspect. -/
def srReload (env : SREnv) (m : SRMid) : SRMid :=
  if reloadCond m then
    let degrees := (m.degrees + m.img.curRot + 360) % 360
    let loaded := LoadImageFromFile env { m.img with curRot := 0 }
    let aspect : Bool := decide ((degrees + 360) % 180 ≠ 0)
    let tw := if aspect then loaded.2.height else loaded.2.width
    let th := if aspect then loaded.2.width else loaded.2.height
    { img := { loaded.1 with trueWidth := tw, trueHeight := th },
      pix := loaded.2,
      tw := tw, th := th, cw := tw, ch := th,
      nw := m.nw, nh := m.nh,
      degrees := degrees, aspect := aspect, reloaded := true }
  else m

/-- The rotate-before-scale trigger (pho.c:390): a rotation is pending and
the target is larger than the current working size on some axis. -/
def rotFirstCond (m : SRMid) : Prop :=
  m.degrees ≠ 0 ∧ (m.nw > m.cw ∨ m.nh > m.ch)

instance (m : SRMid) : Decidable (rotFirstCond m) := by
  unfold rotFirstCond; infer_instance

/-- Lines 432-436 of pho.c: store the local working size into the record,
then perform the still-pending rotation, if any. -/
def finishRot (env : SREnv) (m : SRMid) : SRResult :=
  let img1 : PhoImg := { m.img with curWidth := m.cw, curHeight := m.ch }
  if m.degrees ≠ 0 then
    let r := RotateImageDim env img1 m.pix m.degrees
    ⟨r.1, r.2.1, m.reloaded, false⟩
  else ⟨img1, m.pix, m.reloaded, false⟩

/-- The scaling step and what follows it (pho.c:404-436): scale when the
unrotated target differs from the record's current size; a scale failure
(NULL result or a result with width < 1) returns immediately, leaving the
record and the previously installed buffer untouched; a success installs
the new buffer and refreshes the local working size from its actual
dimensions. -/
def finishScale (env : SREnv) (m : SRMid) (unrot : Int × Int) : SRResult :=
  if unrot.1 ≠ m.img.curWidth ∨ unrot.2 ≠ m.img.curHeight then
    match env.scaleOk unrot.1 unrot.2 with
    | none => ⟨m.img, m.pix, m.reloaded, true⟩
    | some np =>
      if np.width < 1 then ⟨m.img, m.pix, m.reloaded, true⟩
      else finishRot env { m with pix := np, cw := np.width, ch := np.height }
  else finishRot env m

/-- ScaleAndRotate (pho.c:218-448): the full pipeline.  After the target
computation and the possible reload, either rotate first (on the smaller
buffer) and then scale straight to the target, or scale first to the
back-rotated (`unrot_new_*`) target and rotate afterwards. -/
def ScaleAndRotate (env : SREnv) (img0 : PhoImg) (pix0 : GPix)
    (deg0 : Int) : SRResult :=
  let m := srReload env (srPhase1 env img0 pix0 deg0)
  if rotFirstCond m then
    let r := RotateImageDim env m.img m.pix m.degrees
    finishScale env { m with img := r.1, pix := r.2.1, degrees := 0 }
      (m.nw, m.nh)
  else
    finishScale env m (if m.aspect then (m.nh, m.nw) else (m.nw, m.nh))

/-- Rotate-then-scale composition: what ScaleAndRotate does when the
rotate-first branch (pho.c:390-395) is taken. -/
def rotateThenScale (env : SREnv) (m : SRMid) : SRResult :=
  let r := RotateImageDim env m.img m.pix m.degrees
  finishScale env { m with img := r.1, pix := r.2.1, degrees := 0 }
    (m.nw, m.nh)

/-- Scale-then-rotate composition: what ScaleAndRotate does otherwise —
scale to the back-rotated target first (pho.c:396-402), with the pending
rotation, if any, applied after the scale (pho.c:434-436). -/
def scaleThenRotate (env : SREnv) (m : SRMid) : SRResult :=
  finishScale env m (if m.aspect then (m.nh, m.nw) else (m.nw, m.nh))

/-- The state of a ScaleAndRotate call just before its scaling step
(pho.c:404), together with the `unrot_new_*` target the scaling step will
use: after target computation and the possible reload, the rotate-first
branch has either already run (updating record and buffer, zeroing the
pending degrees, scaling straight to the target) or been skipped (the
target is back-rotated instead). -/
def preScaleState (env : SREnv) (img0 : PhoImg) (pix0 : GPix)
    (deg0 : Int) : SRMid × (Int × Int) :=
  let m := srReload env (srPhase1 env img0 pix0 deg0)
  if rotFirstCond m then
    let r := RotateImageDim env m.img m.pix m.degrees
    ({ m with img := r.1, pix := r.2.1, degrees := 0 }, (m.nw, m.nh))
  else (m, if m.aspect then (m.nh, m.nw) else (m.nw, m.nh))

/-- Target size as described by the spec for Normal/ScreenRatio mode
(spec §4.1): true dimensions, shrunk uniformly (aspect preserved, the
larger required shrink winning) exactly when some true dimension exceeds
the monitor, then multiplied by the ratio, snapped to the current size
when the L1 distance is below 5. -/
def specNormalTarget (tw th cw ch monW monH : Int) (ratio : ℚ) :
    Int × Int :=
  let fitted : Int × Int :=
    if tw > monW ∨ th > monH then
      let r : ℚ := min ((monW : ℚ) / (tw : ℚ)) ((monH : ℚ) / (th : ℚ))
      (truncQ (r * (tw : ℚ)), truncQ (r * (th : ℚ)))
    else (tw, th)
  let t : Int × Int :=
    (truncQ ((fitted.1 : ℚ) * ratio), truncQ ((fitted.2 : ℚ) * ratio))
  if |cw - t.1| + |ch - t.2| < 5 then (cw, ch) else t

/-! ## Pointer-heap model of the image list (pho.c:151-185, 481-532) -/

/-- One `PhoImage`'s link fields; pointers are nullable addresses. -/
structure PhoNode where
  next : Option Nat
  prev : Option Nat
deriving DecidableEq

/-- The heap of records, addressed by naturals. -/
def PhoHeap := Nat → PhoNode

/-- Store into `a->next`. -/
def setNext (h : PhoHeap) (a : Nat) (v : Option Nat) : PhoHeap :=
  fun b => if b = a then ⟨v, (h b).prev⟩ else h b

/-- Store into `a->prev`. -/
def setPrev (h : PhoHeap) (a : Nat) (v : Option Nat) : PhoHeap :=
  fun b => if b = a then ⟨(h b).next, v⟩ else h b

/-- Adjacent links along a list of addresses: each element's `next` points
to its successor and the successor's `prev` points back. -/
def linksB (h : PhoHeap) : List Nat → Bool
  | a :: b :: t => ((h a).next == some b) && ((h b).prev == some a) &&
      linksB h (b :: t)
  | _ => true

/-- `h` carries the circular doubly-linked list `a :: rest` (in traversal
order, wrapping from the last element back to `a`). -/
def RingList (h : PhoHeap) (a : Nat) (rest : List Nat) : Prop :=
  linksB h (a :: rest ++ [a]) = true

instance (h : PhoHeap) (a : Nat) (rest : List Nat) :
    Decidable (RingList h a rest) := by
  unfold RingList
  infer_instance

/-- The adjacent pairs of a list: each element with its successor. -/
def zipTail (l : List Nat) : List (Nat × Nat) := l.zip l.tail

/-- Last element of `c :: l` (total, recursive). -/
def lastA : List Nat → Nat → Nat
  | [], c => c
  | x :: t, _ => lastA t x

/-- The claim's invariant for the set of surviving records: every
record's `next` and `prev` stay inside the set and satisfy
`x.next.prev == x` and `x.prev.next == x`. -/
def dllInv (h : PhoHeap) (l : List Nat) : Prop :=
  ∀ x ∈ l,
    (∃ nx ∈ l, (h x).next = some nx ∧ (h nx).prev = some x) ∧
    (∃ px ∈ l, (h x).prev = some px ∧ (h px).next = some x)

/-- Outcome kind of `ReallyDelete`. -/
inductive DelKind where
  | unlinkFailed
  | sessionEnded
  | nullDeref
  | removed
deriving DecidableEq

/-- Outcome of `ReallyDelete`: the kind plus the final heap and the final
`gFirstImage`/`gCurImage` globals. -/
structure DelResult where
  kind : DelKind
  heap : PhoHeap
  first : Option Nat
  cur : Option Nat

/-- ReallyDelete (pho.c:481-532).  `unlinkOk` is the outcome of the
filesystem `unlink`; on failure the function returns with nothing
changed.  The four unlink cases follow the C exactly, including the
final `if (delImg == gFirstImage) gFirstImage = delImg->next` fixup and
the defensive NULL repairs in the general case; a dereference of a NULL
pointer (impossible on a well-formed ring) is reported as `nullDeref`.
The trailing `FreePhoImage`/`ThisImage` calls are outside the model. -/
def ReallyDelete (h : PhoHeap) (first cur : Option Nat) (del : Nat)
    (unlinkOk : Bool) : DelResult :=
  if unlinkOk = false then ⟨.unlinkFailed, h, first, cur⟩
  else if some del = first ∧
      ((h del).next = first ∨ (h del).next = none) then
    ⟨.sessionEnded, h, first, cur⟩
  else if (h del).prev = (h del).next then
    match (h del).prev with
    | none => ⟨.nullDeref, h, first, cur⟩
    | some p =>
      let h1 := setNext h p (some p)
      let h2 := setPrev h1 p (some p)
      let first1 : Option Nat := some p
      let first2 := if some del = first1 then (h2 del).next else first1
      ⟨.removed, h2, first2, some p⟩
  else if (h del).next = first then
    match (h del).prev with
    | none => ⟨.nullDeref, h, first, cur⟩
    | some p =>
      let h1 := setNext h p first
      match first with
      | none => ⟨.nullDeref, h1, first, some p⟩
      | some f =>
        let h2 := setPrev h1 f (some p)
        let first2 := if some del = first then (h2 del).next else first
        ⟨.removed, h2, first2, some p⟩
  else
    match (h del).next with
    | none => ⟨.nullDeref, h, first, cur⟩
    | some n =>
      let h1 := setPrev h n (h del).prev
      let h2 := if (h1 del).prev = none then setPrev h1 del first else h1
      match (h2 del).prev with
      | none => ⟨.nullDeref, h2, first, some n⟩
      | some q =>
        let h3 := setNext h2 q (some n)
        let h4 := if (h3 n).next = none then setNext h3 n first else h3
        match (h4 n).next with
        | none => ⟨.nullDeref, h4, first, some n⟩
        | some m =>
          let h5 := setPrev h4 m (some n)
          let first2 := if some del = first then (h5 del).next else first
          ⟨.removed, h5, first2, some n⟩

/-- NextImage (pho.c:151-165).  `first` is `gFirstImage`, `cur` is
`gCurImage`, `loadOk` tells whether `LoadImageAndRotate` succeeds for a
given record, and the fuel bounds the skip-on-load-failure do/while loop
(which in the C terminates by reaching the end of the list; one unit of
fuel per loop iteration suffices).  The result is the new `gCurImage`
and the C return value (0 on success, -1 at end of list). -/
def NextImage (h : PhoHeap) (first : Option Nat) (loadOk : Nat → Bool) :
    Nat → Option Nat → Option Nat × Int
  | 0, cur => (cur, -1)
  | fuel + 1, cur =>
    match cur with
    | none =>
      match first with
      | none => NextImage h first loadOk fuel none
      | some c =>
        if loadOk c then (some c, 0) else NextImage h first loadOk fuel (some c)
    | some c =>
      match (h c).next with
      | none => (some c, -1)
      | some nx =>
        if some nx = first then (some c, -1)
        else if loadOk nx then (some nx, 0)
        else NextImage h first loadOk fuel (some nx)

/-- The cursor after one `NextImage` call with every load succeeding,
starting from a non-null cursor (the call never changes the cursor when
it reports end-of-list). -/
def advanceCur (h : PhoHeap) (a : Nat) (c : Nat) : Nat :=
  match (NextImage h (some a) (fun _ => true) 1 (some c)).1 with
  | some x => x
  | none => c

/-- The return value of that same `NextImage` call. -/
def advRet (h : PhoHeap) (a : Nat) (c : Nat) : Int :=
  (NextImage h (some a) (fun _ => true) 1 (some c)).2

/-! ## Slideshow timer model (pho.c:41-65) -/

/-- The timer-related globals: `gDelaySeconds`, `gPendingTimeout`, whether
a glib timeout source is currently armed, and a ghost counter of the
`NextImage` calls made by the timer callback. -/
structure SlideState where
  delay : Int
  pending : Int
  armed : Bool
  advances : Nat
deriving DecidableEq

/-- The arming condition of ShowImage (pho.c:58-59), exactly as written in
the C: `gDelaySeconds > 0 && gPendingTimeout == 0 &&
(gCurImage->next != 0 || gCurImage->next != gFirstImage)`. -/
def ShowImageArm (delay pending : Int) (next first : Option Nat) : Bool :=
  decide (delay > 0) && decide (pending = 0) &&
    (decide (next ≠ none) || decide (next ≠ first))

/-- Events touching the timer state: the timeout callback firing
(`DelayTimer`, whose `NextImage` redisplays and may re-arm through
`ShowImage`), a display (`ShowImage`), and assignments to
`gDelaySeconds`.  `next`/`first` are the list neighbourhood seen by the
embedded `ShowImage`, and `id` the timeout identifier `g_timeout_add`
would return. -/
inductive SlideEv where
  | fire (next first : Option Nat) (id : Int)
  | display (next first : Option Nat) (id : Int)
  | setDelay (d : Int)

/-- One step of the timer state machine.  `DelayTimer` (pho.c:41-51): if
the delay was reset to zero the callback returns FALSE at once — the
timeout source dies but `gPendingTimeout` is NOT cleared; otherwise it
clears `gPendingTimeout`, advances, and the nested `ShowImage` may arm a
new timeout.  A `fire` with no armed source is a no-op (it cannot
happen).  `show` arms per `ShowImageArm`. -/
def slideStep (s : SlideState) (e : SlideEv) : SlideState :=
  match e with
  | .setDelay d => { s with delay := d }
  | .display nx fst id =>
    if ShowImageArm s.delay s.pending nx fst then
      { s with pending := id, armed := true }
    else s
  | .fire nx fst id =>
    if s.armed = false then s
    else if s.delay = 0 then { s with armed := false }
    else
      let s1 : SlideState :=
        { s with pending := 0, armed := false, advances := s.advances + 1 }
      if ShowImageArm s1.delay s1.pending nx fst then
        { s1 with pending := id, armed := true }
      else s1

/-- All (x, y, channel) triples visited by the rotation loop nest. -/
def tripleList (b : Pixbuf) : List (Nat × Nat × Nat) :=
  List.product (List.range b.width)
    (List.product (List.range b.height) (List.range b.nchannels))

/-! ## Concrete instances used by witnesses and counterexamples -/

/-- A concrete 2x1 RGB-like buffer (1 channel) with distinct samples. -/
def bufW : Pixbuf := ⟨2, 1, 1, 4, fun n => n + 10⟩

/-- A three-record circular list 0 → 1 → 2 → 0. -/
def heap3 : PhoHeap := fun n =>
  if n = 0 then ⟨some 1, some 2⟩
  else if n = 1 then ⟨some 2, some 0⟩
  else if n = 2 then ⟨some 0, some 1⟩
  else ⟨none, none⟩

/-- A two-record circular list 0 → 1 → 0. -/
def heap2 : PhoHeap := fun n =>
  if n = 0 then ⟨some 1, some 1⟩
  else if n = 1 then ⟨some 0, some 0⟩
  else ⟨none, none⟩

/-- Environment for the scale-failure scenario: ImgRatio mode at ratio 2,
decoder yields 100x50, `gdk_pixbuf_scale_simple` always fails,
`gdk_pixbuf_new` succeeds. -/
def envFail : SREnv :=
  ⟨ PHO_SCALE_IMG_RATIO, 2, 1920, 1080, PHO_DISPLAY_NORMAL, 0, 0,
    100, 50, 0, fun _ _ => none, fun _ _ => true⟩

/-- A fully loaded 100x50 record at full size, no rotation. -/
def imgFull : PhoImg := ⟨100, 50, 100, 50, 0, 0⟩

/-- The live buffer matching `imgFull`. -/
def pixFull : GPix := ⟨100, 50⟩

/-- Environment for the Normal-mode witness: ratio 1, 1920x1080 monitor,
decoder yields 4000x3000, scaling succeeds exactly as requested. -/
def envNormal : SREnv :=
  ⟨PHO_SCALE_NORMAL, 1, 1920, 1080, PHO_DISPLAY_NORMAL, 0, 0,
    4000, 3000, 0, fun w h => some ⟨w, h⟩, fun _ _ => true⟩

/-- Environment in FullSize mode whose scale oracle always fails. -/
def envFS : SREnv :=
  ⟨PHO_SCALE_FULLSIZE, 1, 1920, 1080, PHO_DISPLAY_NORMAL, 0, 0,
    100, 50, 0, fun _ _ => none, fun _ _ => true⟩

/-- A loaded 100x50 record whose buffer is currently 100x60 (so a
FullSize pass must rescale, without triggering the upscale reload). -/
def imgOdd : PhoImg := ⟨100, 50, 100, 60, 0, 0⟩

/-- The live buffer matching `imgOdd`. -/
def pixOdd : GPix := ⟨100, 60⟩

/-- A mid-pipeline state that satisfies the upscale-reload condition: a
previously downscaled 100x50 image (now materialized at 10x5) being asked
to go back up to full size while rotating by 90. -/
def midReload : SRMid :=
  ⟨⟨100, 50, 10, 5, 90, 0⟩, ⟨10, 5⟩, 100, 50, 10, 5, 100, 50, 90, true,
    false⟩

/-! ## Lemmas: the rotation copy loop -/

theorem applyWrites_notMem : ∀ (ws : List (Nat × Nat)) (f : Nat → Nat)
    (k : Nat), k ∉ ws.map Prod.fst → applyWrites f ws k = f k := by
  intro ws
  induction ws with
  | nil => intro f k _; rfl
  | cons p t ih =>
    intro f k hk
    simp only [List.map_cons, List.mem_cons] at hk
    push_neg at hk
    obtain ⟨p1, p2⟩ := p
    have := ih (Function.update f p1 p2) k hk.2
    simp only [applyWrites, this]
    exact Function.update_noteq hk.1 _ _

theorem applyWrites_lookup {α : Type} (key val : α → Nat) :
    ∀ (l : List α) (f : Nat → Nat) (a : α), a ∈ l → l.Nodup →
    (∀ x ∈ l, ∀ y ∈ l, key x = key y → x = y) →
    applyWrites f (l.map fun x => (key x, val x)) (key a) = val a := by
  intro l
  induction l with
  | nil => intro f a ha; exact absurd ha (List.not_mem_nil a)
  | cons x t ih =>
    intro f a ha hnd hinj
    simp only [List.map_cons, applyWrites]
    rcases List.mem_cons.1 ha with rfl | hat
    · have hkey : key a ∉ (t.map fun x => (key x, val x)).map Prod.fst := by
        simp only [List.map_map, List.mem_map]
        rintro ⟨y, hy, hkeq⟩
        have : y = a := hinj y (List.mem_cons_of_mem _ hy) a
          (List.mem_cons_self _ _) hkeq
        subst this
        exact (List.nodup_cons.1 hnd).1 hy
      rw [applyWrites_notMem _ _ _ hkey, Function.update_same]
    · exact ih (Function.update f (key x) (val x)) a hat
        (List.nodup_cons.1 hnd).2
        (fun u hu v hv => hinj u (List.mem_cons_of_mem _ hu) v
          (List.mem_cons_of_mem _ hv))

theorem tripleList_nodup (b : Pixbuf) : (tripleList b).Nodup :=
  (List.nodup_range b.width).product
    ((List.nodup_range b.height).product (List.nodup_range b.nchannels))

theorem tripleList_mem (b : Pixbuf) (x y i : Nat) :
    (x, y, i) ∈ tripleList b ↔ x < b.width ∧ y < b.height ∧
      i < b.nchannels := by
  simp [tripleList, List.mem_product, List.mem_range]

theorem RotateWrites_eq_map (d : Nat) (b : Pixbuf) (newRS : Nat) :
    RotateWrites d b newRS = (tripleList b).map fun t =>
      (destIndex d b newRS t.1 t.2.1 t.2.2,
        b.pixels (srcIndex b t.1 t.2.1 t.2.2)) := by
  simp only [RotateWrites, tripleList, List.product, List.map_flatMap,
    List.map_map]
  rfl

theorem gdkRowstride_ge (w nc : Nat) : w * nc ≤ gdkRowstride w nc := by
  have h1 := Nat.div_add_mod (w * nc + 3) 4
  have h2 : (w * nc + 3) % 4 < 4 := Nat.mod_lt _ (by norm_num)
  unfold gdkRowstride
  omega

theorem mulAddInj {R a b i j : Nat} (hi : i < R) (hj : j < R)
    (h : a * R + i = b * R + j) : a = b ∧ i = j := by
  have h0 : 0 < R := Nat.pos_of_ne_zero (by omega)
  have ha : (i + R * a) / R = a := by
    rw [Nat.add_mul_div_left _ _ h0, Nat.div_eq_of_lt hi, Nat.zero_add]
  have hb : (j + R * b) / R = b := by
    rw [Nat.add_mul_div_left _ _ h0, Nat.div_eq_of_lt hj, Nat.zero_add]
  have h' : i + R * a = j + R * b := by
    rw [Nat.mul_comm R a, Nat.mul_comm R b]
    omega
  have hab : a = b := by rw [← ha, ← hb, h']
  subst hab
  exact ⟨rfl, by omega⟩

theorem rotCoord_bounds (d w h x y : Nat)
    (hd : d = 90 ∨ d = 270 ∨ d = 180) (hx : x < w) (hy : y < h) :
    (rotCoord d w h x y).1 < (if d = 180 then w else h) ∧
      (rotCoord d w h x y).2 < (if d = 180 then h else w) := by
  rcases hd with rfl | rfl | rfl <;> norm_num [rotCoord] <;> omega

theorem rotCoord_inj (d w h x y x' y' : Nat)
    (hd : d = 90 ∨ d = 270 ∨ d = 180) (hx : x < w) (hy : y < h)
    (hx' : x' < w) (hy' : y' < h)
    (he : rotCoord d w h x y = rotCoord d w h x' y') :
    x = x' ∧ y = y' := by
  rcases hd with rfl | rfl | rfl <;>
    norm_num [rotCoord, Prod.mk.injEq] at he <;> omega

theorem destIndex_inj (d : Nat) (b : Pixbuf) (newRS : Nat)
    (hd : d = 90 ∨ d = 270 ∨ d = 180)
    (hrs : (if d = 180 then b.width else b.height) * b.nchannels ≤ newRS) :
    ∀ t ∈ tripleList b, ∀ t' ∈ tripleList b,
      destIndex d b newRS t.1 t.2.1 t.2.2 =
        destIndex d b newRS t'.1 t'.2.1 t'.2.2 → t = t' := by
  rintro ⟨x, y, i⟩ ht ⟨x', y', i'⟩ ht' he
  rw [tripleList_mem] at ht ht'
  obtain ⟨hx, hy, hi⟩ := ht
  obtain ⟨hx', hy', hi'⟩ := ht'
  have hb := rotCoord_bounds d b.width b.height x y hd hx hy
  have hb' := rotCoord_bounds d b.width b.height x' y' hd hx' hy'
  have hlt : (rotCoord d b.width b.height x y).1 * b.nchannels + i <
      newRS := by
    calc (rotCoord d b.width b.height x y).1 * b.nchannels + i
        < ((rotCoord d b.width b.height x y).1 + 1) * b.nchannels := by
          rw [Nat.succ_mul]; omega
      _ ≤ (if d = 180 then b.width else b.height) * b.nchannels :=
          Nat.mul_le_mul_right _ (by omega)
      _ ≤ newRS := hrs
  have hlt' : (rotCoord d b.width b.height x' y').1 * b.nchannels + i' <
      newRS := by
    calc (rotCoord d b.width b.height x' y').1 * b.nchannels + i'
        < ((rotCoord d b.width b.height x' y').1 + 1) * b.nchannels := by
          rw [Nat.succ_mul]; omega
      _ ≤ (if d = 180 then b.width else b.height) * b.nchannels :=
          Nat.mul_le_mul_right _ (by omega)
      _ ≤ newRS := hrs
  unfold destIndex at he
  rw [Nat.add_assoc, Nat.add_assoc] at he
  have h1 := mulAddInj hlt hlt' he
  have h2 := mulAddInj hi hi' h1.2
  have hcoord : rotCoord d b.width b.height x y =
      rotCoord d b.width b.height x' y' := by
    have e1 := h1.1
    have e2 := h2.1
    exact Prod.ext e2 e1
  have := rotCoord_inj d b.width b.height x y x' y' hd hx hy hx' hy' hcoord
  simp only [Prod.mk.injEq]
  exact ⟨this.1, this.2, h2.2⟩

theorem rotate_readback (d : Nat) (b : Pixbuf)
    (hd : d = 90 ∨ d = 270 ∨ d = 180) (x y i : Nat)
    (hx : x < b.width) (hy : y < b.height) (hi : i < b.nchannels) :
    applyWrites (fun _ => 0)
      (RotateWrites d b
        (gdkRowstride (if d = 180 then b.width else b.height) b.nchannels))
      (destIndex d b
        (gdkRowstride (if d = 180 then b.width else b.height) b.nchannels)
        x y i) =
      b.pixels (srcIndex b x y i) := by
  rw [RotateWrites_eq_map]
  exact applyWrites_lookup
    (fun t : Nat × Nat × Nat => destIndex d b
      (gdkRowstride (if d = 180 then b.width else b.height) b.nchannels)
      t.1 t.2.1 t.2.2)
    (fun t : Nat × Nat × Nat => b.pixels (srcIndex b t.1 t.2.1 t.2.2))
    (tripleList b) (fun _ => 0) (x, y, i)
    ((tripleList_mem b x y i).2 ⟨hx, hy, hi⟩)
    (tripleList_nodup b)
    (destIndex_inj d b _ hd (gdkRowstride_ge _ _))

/-! ## Claims C4 and C5: RotateImage pixel mapping and composition -/

/-- C4: rotation by 90 degrees produces a buffer with new width = old
height and new height = old width in which every source pixel (x,y) is
copied, all channels verbatim, to destination (oldHeight - y - 1, x);
rotation by 270 maps (x,y) to (y, oldWidth - x - 1); rotation by 180
leaves the dimensions unchanged and maps (x,y) to
(oldWidth - x - 1, oldHeight - y - 1); the source row stride and the
destination row stride are computed independently (the destination gets
its own freshly computed gdk stride) and each is used for its own side of
the copy. -/
theorem RotateImage_pixel_mapping (b : Pixbuf) (x y i : Nat)
    (hx : x < b.width) (hy : y < b.height) (hi : i < b.nchannels) :
    (RotateImage b 90 = some (rotP b 90) ∧
      (rotP b 90).width = b.height ∧ (rotP b 90).height = b.width ∧
      (rotP b 90).rowstride = gdkRowstride b.height b.nchannels ∧
      (rotP b 90).pixels
          (x * (rotP b 90).rowstride + (b.height - y - 1) * b.nchannels + i)
        = b.pixels (y * b.rowstride + x * b.nchannels + i)) ∧
    (RotateImage b 270 = some (rotP b 270) ∧
      (rotP b 270).width = b.height ∧ (rotP b 270).height = b.width ∧
      (rotP b 270).rowstride = gdkRowstride b.height b.nchannels ∧
      (rotP b 270).pixels
          ((b.width - x - 1) * (rotP b 270).rowstride + y * b.nchannels + i)
        = b.pixels (y * b.rowstride + x * b.nchannels + i)) ∧
    (RotateImage b 180 = some (rotP b 180) ∧
      (rotP b 180).width = b.width ∧ (rotP b 180).height = b.height ∧
      (rotP b 180).rowstride = gdkRowstride b.width b.nchannels ∧
      (rotP b 180).pixels
          ((b.height - y - 1) * (rotP b 180).rowstride +
            (b.width - x - 1) * b.nchannels + i)
        = b.pixels (y * b.rowstride + x * b.nchannels + i)) := by
  refine ⟨⟨rfl, rfl, rfl, rfl, ?_⟩, ⟨rfl, rfl, rfl, rfl, ?_⟩,
    ⟨rfl, rfl, rfl, rfl, ?_⟩⟩
  · exact rotate_readback 90 b (by norm_num) x y i hx hy hi
  · exact rotate_readback 270 b (by norm_num) x y i hx hy hi
  · exact rotate_readback 180 b (by norm_num) x y i hx hy hi

/-- C4 witness: the mapping evaluated on the concrete 2x1 buffer. -/
theorem RotateImage_pixel_mapping_witness :
    (1 < bufW.width ∧ 0 < bufW.height ∧ 0 < bufW.nchannels) ∧
      (rotP bufW 90).pixels
        (1 * (rotP bufW 90).rowstride +
          (bufW.height - 0 - 1) * bufW.nchannels + 0) =
        bufW.pixels (0 * bufW.rowstride + 1 * bufW.nchannels + 0) :=
  ⟨⟨by decide, by decide, by decide⟩,
    ((RotateImage_pixel_mapping bufW 1 0 0 (by decide) (by decide)
      (by decide)).1.2.2.2.2)⟩

/-- C5: for every buffer with width distinct from height, rotating by 90
and then by 270 yields a buffer pixel-for-pixel equal to the original,
and rotating twice by 180 yields a buffer pixel-for-pixel equal to the
original (same dimensions and channel count, same sample at every valid
pixel coordinate and channel). -/
theorem RotateImage_compose_id (b : Pixbuf) (hne : b.width ≠ b.height) :
    ((rotP (rotP b 90) 270).width = b.width ∧
      (rotP (rotP b 90) 270).height = b.height ∧
      (rotP (rotP b 90) 270).nchannels = b.nchannels ∧
      ∀ x y i, x < b.width → y < b.height → i < b.nchannels →
        (rotP (rotP b 90) 270).pixels
            (y * (rotP (rotP b 90) 270).rowstride + x * b.nchannels + i)
          = b.pixels (y * b.rowstride + x * b.nchannels + i)) ∧
    ((rotP (rotP b 180) 180).width = b.width ∧
      (rotP (rotP b 180) 180).height = b.height ∧
      (rotP (rotP b 180) 180).nchannels = b.nchannels ∧
      ∀ x y i, x < b.width → y < b.height → i < b.nchannels →
        (rotP (rotP b 180) 180).pixels
            (y * (rotP (rotP b 180) 180).rowstride + x * b.nchannels + i)
          = b.pixels (y * b.rowstride + x * b.nchannels + i)) := by
  constructor
  · refine ⟨rfl, rfl, rfl, ?_⟩
    intro x y i hx hy hi
    have h0 : 0 < b.height := Nat.pos_of_ne_zero (by omega)
    have k2 : applyWrites (fun _ => 0)
        (RotateWrites 270 (rotP b 90) (gdkRowstride b.width b.nchannels))
        ((b.height - (b.height - y - 1) - 1) *
            gdkRowstride b.width b.nchannels + x * b.nchannels + i) =
        applyWrites (fun _ => 0)
          (RotateWrites 90 b (gdkRowstride b.height b.nchannels))
          (x * gdkRowstride b.height b.nchannels +
            (b.height - y - 1) * b.nchannels + i) :=
      rotate_readback 270 (rotP b 90) (by norm_num) (b.height - y - 1) x i
        (by show b.height - y - 1 < b.height; omega) hx hi
    have harith : b.height - (b.height - y - 1) - 1 = y := by omega
    rw [harith] at k2
    have k1 : applyWrites (fun _ => 0)
        (RotateWrites 90 b (gdkRowstride b.height b.nchannels))
        (x * gdkRowstride b.height b.nchannels +
          (b.height - y - 1) * b.nchannels + i) =
        b.pixels (y * b.rowstride + x * b.nchannels + i) :=
      rotate_readback 90 b (by norm_num) x y i hx hy hi
    exact k2.trans k1
  · refine ⟨rfl, rfl, rfl, ?_⟩
    intro x y i hx hy hi
    have k2 : applyWrites (fun _ => 0)
        (RotateWrites 180 (rotP b 180) (gdkRowstride b.width b.nchannels))
        ((b.height - (b.height - y - 1) - 1) *
            gdkRowstride b.width b.nchannels +
          (b.width - (b.width - x - 1) - 1) * b.nchannels + i) =
        applyWrites (fun _ => 0)
          (RotateWrites 180 b (gdkRowstride b.width b.nchannels))
          ((b.height - y - 1) * gdkRowstride b.width b.nchannels +
            (b.width - x - 1) * b.nchannels + i) :=
      rotate_readback 180 (rotP b 180) (by norm_num) (b.width - x - 1)
        (b.height - y - 1) i (by show b.width - x - 1 < b.width; omega)
        (by show b.height - y - 1 < b.height; omega) hi
    have harith1 : b.height - (b.height - y - 1) - 1 = y := by omega
    have harith2 : b.width - (b.width - x - 1) - 1 = x := by omega
    rw [harith1, harith2] at k2
    have k1 : applyWrites (fun _ => 0)
        (RotateWrites 180 b (gdkRowstride b.width b.nchannels))
        ((b.height - y - 1) * gdkRowstride b.width b.nchannels +
          (b.width - x - 1) * b.nchannels + i) =
        b.pixels (y * b.rowstride + x * b.nchannels + i) :=
      rotate_readback 180 b (by norm_num) x y i hx hy hi
    exact k2.trans k1

/-- C5 witness: the composition evaluated on the concrete 2x1 buffer. -/
theorem RotateImage_compose_id_witness :
    bufW.width ≠ bufW.height ∧
      (rotP (rotP bufW 90) 270).width = bufW.width ∧
      (rotP (rotP bufW 90) 270).pixels
          (0 * (rotP (rotP bufW 90) 270).rowstride + 1 * bufW.nchannels + 0)
        = bufW.pixels (0 * bufW.rowstride + 1 * bufW.nchannels + 0) := by
  have h := RotateImage_compose_id bufW (by decide)
  exact ⟨by decide, h.1.1, h.1.2.2.2 1 0 0 (by decide) (by decide) (by decide)⟩

/-! ## Claim C6: the Normal / ScreenRatio target computation -/

/-- Helper: the C idiom `if (x > y) r = y; else r = x;` computes the
minimum. -/
theorem ite_gt_eq_min (a c : ℚ) : (if a > c then c else a) = min a c := by
  split
  · exact (min_eq_right (le_of_lt (by assumption))).symm
  · exact (min_eq_left (le_of_not_lt (by assumption))).symm

/-- C6: under Normal or ScreenRatio mode the computed target is the true
(working-frame) dimensions, shrunk uniformly on both axes (aspect
preserved, the larger required shrink — the smaller fit ratio — winning)
exactly when one of them exceeds the corresponding monitor dimension,
then multiplied by the configured ratio, and snapped to the current
dimensions whenever the L1 distance to them is below 5; in particular
true (4000, 3000) against a 1920x1080 monitor at ratio 1 yields
(1440, 1080). -/
theorem ComputeTargetSize_normal_spec :
    (∀ (env : SREnv), env.scaleMode = PHO_SCALE_NORMAL ∨
        env.scaleMode = PHO_SCALE_SCREEN_RATIO →
      ∀ tw th cw ch, ComputeTargetSize env tw th cw ch =
        specNormalTarget tw th cw ch env.monW env.monH env.scaleRatio) ∧
    ComputeTargetSize envNormal 4000 3000 4000 3000 = (1440, 1080) := by
  constructor
  · intro env hm tw th cw ch
    have hns : env.scaleMode ≠ PHO_SCALE_FULLSIZE := by
      rcases hm with h | h <;> rw [h] <;> decide
    unfold ComputeTargetSize specNormalTarget ScaleToFit
    rw [if_neg hns, if_pos hm]
    simp only [ite_gt_eq_min]
  · show ComputeTargetSize envNormal 4000 3000 4000 3000 = (1440, 1080)
    unfold ComputeTargetSize envNormal ScaleToFit
    norm_num [PHO_SCALE_NORMAL, PHO_SCALE_FULLSIZE, PHO_SCALE_SCREEN_RATIO,
      truncQ]

/-- C6 witness: the general Normal-mode equation applied to the concrete
environment. -/
theorem ComputeTargetSize_normal_spec_witness :
    ComputeTargetSize envNormal 4000 3000 100 100 =
      specNormalTarget 4000 3000 100 100 1920 1080 1 :=
  ComputeTargetSize_normal_spec.1 envNormal (Or.inl rfl) 4000 3000 100 100

/-! ## Lemmas: threading of the reload flag through the pipeline -/

theorem finishRot_reloaded (env : SREnv) (m : SRMid) :
    (finishRot env m).reloaded = m.reloaded := by
  unfold finishRot
  split <;> rfl

theorem finishScale_reloaded (env : SREnv) (m : SRMid) (u : Int × Int) :
    (finishScale env m u).reloaded = m.reloaded := by
  unfold finishScale
  split
  · rcases henv : env.scaleOk u.1 u.2 with _ | np
    · simp only [henv]
    · simp only [henv]
      split
      · rfl
      · rw [finishRot_reloaded]
  · rw [finishRot_reloaded]

theorem ScaleAndRotate_reloaded (env : SREnv) (img : PhoImg) (pix : GPix)
    (deg : Int) :
    (ScaleAndRotate env img pix deg).reloaded =
      (srReload env (srPhase1 env img pix deg)).reloaded := by
  simp only [ScaleAndRotate]
  split <;> rw [finishScale_reloaded]

theorem srPhase1_reloaded (env : SREnv) (img : PhoImg) (pix : GPix)
    (deg : Int) : (srPhase1 env img pix deg).reloaded = false := rfl

theorem srReload_reloaded (env : SREnv) (m : SRMid)
    (h : m.reloaded = false) :
    ((srReload env m).reloaded = true ↔ reloadCond m) := by
  unfold srReload
  split
  · simpa using by assumption
  · rw [h]
    simp only [Bool.false_eq_true, false_iff]
    assumption

/-! ## Claim C1: the upscale-reload rule -/

/-- C1: the reload-from-source path inside ScaleAndRotate runs exactly
when the computed target exceeds the current working size on at least one
axis while the current working size is strictly below the true working
size on both axes; and that reload folds the pending relative rotation
into the absolute rotation `(degrees + curRot) mod 360`, resets `curRot`
to 0, installs the freshly decoded buffer, and recomputes
`trueWidth/trueHeight` from the fresh decode, swapped exactly when the
new absolute rotation changes the aspect. -/
theorem ScaleAndRotate_reload_rule :
    (∀ (env : SREnv) (img : PhoImg) (pix : GPix) (deg : Int),
      (ScaleAndRotate env img pix deg).reloaded = true ↔
        reloadCond (srPhase1 env img pix deg)) ∧
    (∀ (env : SREnv) (m : SRMid), reloadCond m →
      m.img.trueWidth ≠ 0 → m.img.trueHeight ≠ 0 →
      srReload env m =
        { img := { m.img with
            curWidth := env.fileW, curHeight := env.fileH, curRot := 0,
            trueWidth :=
              if decide (((m.degrees + m.img.curRot) % 360) % 180 ≠ 0)
              then env.fileH else env.fileW,
            trueHeight :=
              if decide (((m.degrees + m.img.curRot) % 360) % 180 ≠ 0)
              then env.fileW else env.fileH },
          pix := ⟨env.fileW, env.fileH⟩,
          tw := if decide (((m.degrees + m.img.curRot) % 360) % 180 ≠ 0)
            then env.fileH else env.fileW,
          th := if decide (((m.degrees + m.img.curRot) % 360) % 180 ≠ 0)
            then env.fileW else env.fileH,
          cw := if decide (((m.degrees + m.img.curRot) % 360) % 180 ≠ 0)
            then env.fileH else env.fileW,
          ch := if decide (((m.degrees + m.img.curRot) % 360) % 180 ≠ 0)
            then env.fileW else env.fileH,
          nw := m.nw, nh := m.nh,
          degrees := (m.degrees + m.img.curRot) % 360,
          aspect := decide (((m.degrees + m.img.curRot) % 360) % 180 ≠ 0),
          reloaded := true }) := by
  constructor
  · intro env img pix deg
    rw [ScaleAndRotate_reloaded]
    exact srReload_reloaded env _ (srPhase1_reloaded env img pix deg)
  · intro env m hc h1 h2
    have h360 : (m.degrees + m.img.curRot + 360) % 360 =
        (m.degrees + m.img.curRot) % 360 := by omega
    have h180 : ((m.degrees + m.img.curRot) % 360 + 360) % 180 =
        ((m.degrees + m.img.curRot) % 360) % 180 := by omega
    have hcond : (m.img.trueWidth = 0 ∨ m.img.trueHeight = 0) ↔ False := by
      simp [h1, h2]
    simp only [srReload, LoadImageFromFile, if_pos hc, hcond, if_false,
      h360, h180]

/-- C1 witness: the reload rule evaluated on a concrete downscaled state
(90 pending on top of curRot 90: absolute rotation 180, no aspect swap,
so the fresh 100x50 decode is kept unswapped and curRot is cleared). -/
theorem ScaleAndRotate_reload_rule_witness :
    reloadCond midReload ∧
      (srReload envFail midReload).degrees = 180 ∧
      (srReload envFail midReload).img.curRot = 0 ∧
      (srReload envFail midReload).img.trueWidth = 100 ∧
      (srReload envFail midReload).img.trueHeight = 50 := by
  have h := ScaleAndRotate_reload_rule.2 envFail midReload (by decide)
    (by decide) (by decide)
  refine ⟨by decide, ?_, ?_, ?_, ?_⟩ <;> rw [h] <;> decide

/-! ## Claim C2: rotate-before-scale versus scale-then-rotate -/

/-- C2: after the possible reload, ScaleAndRotate rotates before scaling
exactly when a nonzero rotation is pending and the target exceeds the
pre-scale current size on some axis, and otherwise scales first, applying
the pending rotation (if nonzero) only after the scaling step. -/
theorem ScaleAndRotate_order_rule :
    (∀ (env : SREnv) (img0 : PhoImg) (pix0 : GPix) (deg : Int),
      ScaleAndRotate env img0 pix0 deg =
        if rotFirstCond (srReload env (srPhase1 env img0 pix0 deg))
        then rotateThenScale env (srReload env (srPhase1 env img0 pix0 deg))
        else scaleThenRotate env
          (srReload env (srPhase1 env img0 pix0 deg))) ∧
    (∀ (env : SREnv) (m : SRMid), m.degrees ≠ 0 →
      finishRot env m =
        ⟨(RotateImageDim env
            { m.img with curWidth := m.cw, curHeight := m.ch }
            m.pix m.degrees).1,
          (RotateImageDim env
            { m.img with curWidth := m.cw, curHeight := m.ch }
            m.pix m.degrees).2.1,
          m.reloaded, false⟩) ∧
    (∀ (env : SREnv) (m : SRMid), m.degrees = 0 →
      finishRot env m =
        ⟨{ m.img with curWidth := m.cw, curHeight := m.ch },
          m.pix, m.reloaded, false⟩) := by
  refine ⟨?_, ?_, ?_⟩
  · intro env img0 pix0 deg
    simp only [ScaleAndRotate, rotateThenScale, scaleThenRotate]
  · intro env m h
    unfold finishRot
    rw [if_pos h]
  · intro env m h
    unfold finishRot
    rw [if_neg (by simp [h])]

/-- C2 witness: both shapes of the rule evaluated at concrete states. -/
theorem ScaleAndRotate_order_rule_witness :
    midReload.degrees ≠ 0 ∧
      finishRot envFail midReload =
        ⟨(RotateImageDim envFail
            { midReload.img with
              curWidth := midReload.cw, curHeight := midReload.ch }
            midReload.pix midReload.degrees).1,
          (RotateImageDim envFail
            { midReload.img with
              curWidth := midReload.cw, curHeight := midReload.ch }
            midReload.pix midReload.degrees).2.1,
          midReload.reloaded, false⟩ :=
  ⟨by decide, ScaleAndRotate_order_rule.2.1 envFail midReload (by decide)⟩

/-! ## Claim C3: behaviour of a failing scale step -/

theorem ScaleAndRotate_eq_finishScale (env : SREnv) (img0 : PhoImg)
    (pix0 : GPix) (deg : Int) :
    ScaleAndRotate env img0 pix0 deg =
      finishScale env (preScaleState env img0 pix0 deg).1
        (preScaleState env img0 pix0 deg).2 := by
  simp only [ScaleAndRotate, preScaleState]
  split <;> rfl

/-- C3 (amended): if the scaling step fails — the scale oracle returns no
buffer, or one reporting width below 1 — ScaleAndRotate aborts with a
reported failure, keeping the pixel buffer and the record fields exactly
as they were immediately before the scaling step; those equal the values
at entry whenever the call performed no reload and no pre-scale rotation
(for an already-loaded record). -/
theorem ScaleAndRotate_scale_failure :
    (∀ (env : SREnv) (img0 : PhoImg) (pix0 : GPix) (deg : Int),
      (preScaleState env img0 pix0 deg).2.1 ≠
          (preScaleState env img0 pix0 deg).1.img.curWidth ∨
        (preScaleState env img0 pix0 deg).2.2 ≠
          (preScaleState env img0 pix0 deg).1.img.curHeight →
      (env.scaleOk (preScaleState env img0 pix0 deg).2.1
          (preScaleState env img0 pix0 deg).2.2 = none ∨
        ∃ np, env.scaleOk (preScaleState env img0 pix0 deg).2.1
            (preScaleState env img0 pix0 deg).2.2 = some np ∧
          np.width < 1) →
      ScaleAndRotate env img0 pix0 deg =
        ⟨(preScaleState env img0 pix0 deg).1.img,
          (preScaleState env img0 pix0 deg).1.pix,
          (preScaleState env img0 pix0 deg).1.reloaded, true⟩) ∧
    (∀ (env : SREnv) (img0 : PhoImg) (pix0 : GPix) (deg : Int),
      img0.trueWidth ≠ 0 → img0.trueHeight ≠ 0 →
      ¬ reloadCond (srPhase1 env img0 pix0 deg) →
      ¬ rotFirstCond (srPhase1 env img0 pix0 deg) →
      (preScaleState env img0 pix0 deg).1.img = img0 ∧
        (preScaleState env img0 pix0 deg).1.pix = pix0 ∧
        (preScaleState env img0 pix0 deg).1.reloaded = false) := by
  constructor
  · intro env img0 pix0 deg h1 h2
    rw [ScaleAndRotate_eq_finishScale]
    unfold finishScale
    rw [if_pos h1]
    rcases h2 with hnone | ⟨np, hsome, hlt⟩
    · rw [hnone]
    · rw [hsome]
      simp only [if_pos hlt]
  · intro env img0 pix0 deg h1 h2 hrc hrf
    have hload : ¬(img0.trueWidth = 0 ∨ img0.trueHeight = 0) := by
      push_neg
      exact ⟨h1, h2⟩
    have hm : srReload env (srPhase1 env img0 pix0 deg) =
        srPhase1 env img0 pix0 deg := by
      unfold srReload
      rw [if_neg hrc]
    have hrf2 : ¬ rotFirstCond
        (srReload env (srPhase1 env img0 pix0 deg)) := by
      rw [hm]
      exact hrf
    unfold preScaleState
    rw [hm, if_neg hrf]
    refine ⟨?_, ?_, rfl⟩ <;>
      simp only [srPhase1, if_neg hload]

/-- C3 witness: the amended rule evaluated on a concrete FullSize-mode
call whose scale step fails; the state is preserved exactly as at entry
(no reload or pre-scale rotation happened). -/
theorem ScaleAndRotate_scale_failure_witness :
    ScaleAndRotate envFS imgOdd pixOdd 0 =
        ⟨(preScaleState envFS imgOdd pixOdd 0).1.img,
          (preScaleState envFS imgOdd pixOdd 0).1.pix,
          (preScaleState envFS imgOdd pixOdd 0).1.reloaded, true⟩ ∧
      (preScaleState envFS imgOdd pixOdd 0).1.img = imgOdd ∧
      (preScaleState envFS imgOdd pixOdd 0).1.pix = pixOdd ∧
      (preScaleState envFS imgOdd pixOdd 0).1.reloaded = false :=
  ⟨ScaleAndRotate_scale_failure.1 envFS imgOdd pixOdd 0 (by decide)
      (Or.inl (by decide)),
    ScaleAndRotate_scale_failure.2 envFS imgOdd pixOdd 0 (by decide)
      (by decide) (by decide) (by decide)⟩

/-- C3 counterexample to the claim as stated: with ImgRatio mode at
ratio 2 and a failing scale oracle, rotating a full-size 100x50 image by
90 rotates first (the target is larger), then the scale step fails; the
call aborts with an error, but `curRot` is now 90 and `curWidth` 50,
not the values 0 and 100 they held at entry to ScaleAndRotate. -/
theorem ScaleAndRotate_scale_failure_counterexample :
    (ScaleAndRotate envFail imgFull pixFull 90).failed = true ∧
      imgFull.curRot = 0 ∧
      (ScaleAndRotate envFail imgFull pixFull 90).img.curRot = 90 ∧
      imgFull.curWidth = 100 ∧
      (ScaleAndRotate envFail imgFull pixFull 90).img.curWidth = 50 := by
  have hm1 : srPhase1 envFail imgFull pixFull 90 =
      ⟨imgFull, pixFull, 50, 100, 50, 100, 100, 200, 90, true, false⟩ := by
    unfold srPhase1 ComputeTargetSize envFail imgFull pixFull
      PHO_SCALE_IMG_RATIO PHO_SCALE_NORMAL PHO_SCALE_FULLSIZE
      PHO_SCALE_SCREEN_RATIO
    norm_num [truncQ]
  have hall : ScaleAndRotate envFail imgFull pixFull 90 =
      ⟨⟨50, 100, 50, 100, 90, 0⟩, ⟨50, 100⟩, false, true⟩ := by
    unfold ScaleAndRotate
    rw [hm1]
    decide
  rw [hall]
  exact ⟨rfl, rfl, rfl, rfl, rfl⟩

/-! ## Lemmas: heap stores and adjacency of ring lists -/

theorem setPrev_next (h : PhoHeap) (a : Nat) (v : Option Nat) (b : Nat) :
    ((setPrev h a v) b).next = (h b).next := by
  unfold setPrev
  split <;> rfl

theorem setNext_prev (h : PhoHeap) (a : Nat) (v : Option Nat) (b : Nat) :
    ((setNext h a v) b).prev = (h b).prev := by
  unfold setNext
  split <;> rfl

theorem setNext_next_self (h : PhoHeap) (a : Nat) (v : Option Nat) :
    ((setNext h a v) a).next = v := by
  unfold setNext
  simp

theorem setNext_next_ne (h : PhoHeap) (a : Nat) (v : Option Nat) (b : Nat)
    (hb : b ≠ a) : ((setNext h a v) b).next = (h b).next := by
  unfold setNext
  simp [hb]

theorem setPrev_prev_self (h : PhoHeap) (a : Nat) (v : Option Nat) :
    ((setPrev h a v) a).prev = v := by
  unfold setPrev
  simp

theorem setPrev_prev_ne (h : PhoHeap) (a : Nat) (v : Option Nat) (b : Nat)
    (hb : b ≠ a) : ((setPrev h a v) b).prev = (h b).prev := by
  unfold setPrev
  simp [hb]

theorem zipTail_cons₂ (a b : Nat) (t : List Nat) :
    zipTail (a :: b :: t) = (a, b) :: zipTail (b :: t) := rfl

theorem linksB_iff (h : PhoHeap) : ∀ (l : List Nat),
    linksB h l = true ↔
      ∀ p ∈ zipTail l, (h p.1).next = some p.2 ∧ (h p.2).prev = some p.1 := by
  intro l
  induction l with
  | nil => simp [linksB, zipTail]
  | cons a t ih =>
    cases t with
    | nil => simp [linksB, zipTail]
    | cons b t2 =>
      rw [zipTail_cons₂]
      simp only [linksB, Bool.and_eq_true, beq_iff_eq, List.mem_cons]
      constructor
      · rintro ⟨⟨hab, hba⟩, hrest⟩ p hp
        rcases hp with rfl | hp
        · exact ⟨hab, hba⟩
        · exact (ih.1 hrest) p hp
      · intro hall
        refine ⟨⟨(hall (a, b) (Or.inl rfl)).1, (hall (a, b) (Or.inl rfl)).2⟩,
          ih.2 ?_⟩
        intro p hp
        exact hall p (Or.inr hp)

theorem zipTail_append_last : ∀ (l : List Nat) (c d : Nat),
    zipTail (c :: l ++ [d]) = zipTail (c :: l) ++ [(lastA l c, d)] := by
  intro l
  induction l with
  | nil => intro c d; rfl
  | cons x t ih =>
    intro c d
    show zipTail (c :: x :: (t ++ [d])) = _
    rw [zipTail_cons₂]
    have ih' : zipTail (x :: (t ++ [d])) =
        zipTail (x :: t) ++ [(lastA t x, d)] := ih x d
    rw [ih']
    rfl

theorem zipTail_fst_mem : ∀ (l : List Nat) (p : Nat × Nat),
    p ∈ zipTail l → p.1 ∈ l := by
  intro l
  induction l with
  | nil => intro p hp; exact absurd hp (by simp [zipTail])
  | cons a t ih =>
    cases t with
    | nil => intro p hp; exact absurd hp (by simp [zipTail])
    | cons b t2 =>
      intro p hp
      rw [zipTail_cons₂, List.mem_cons] at hp
      rcases hp with rfl | hp
      · exact List.mem_cons_self _ _
      · exact List.mem_cons_of_mem _ (ih p hp)

theorem zipTail_snd_mem : ∀ (l : List Nat) (p : Nat × Nat),
    p ∈ zipTail l → p.2 ∈ l := by
  intro l
  induction l with
  | nil => intro p hp; exact absurd hp (by simp [zipTail])
  | cons a t ih =>
    cases t with
    | nil => intro p hp; exact absurd hp (by simp [zipTail])
    | cons b t2 =>
      intro p hp
      rw [zipTail_cons₂, List.mem_cons] at hp
      rcases hp with rfl | hp
      · exact List.mem_cons_of_mem _ (List.mem_cons_self _ _)
      · exact List.mem_cons_of_mem _ (ih p hp)

theorem lastA_mem : ∀ (l : List Nat) (c : Nat), lastA l c ∈ c :: l := by
  intro l
  induction l with
  | nil => intro c; exact List.mem_cons_self _ _
  | cons x t ih =>
    intro c
    exact List.mem_cons_of_mem _ (ih x)

theorem links_forward (h : PhoHeap) : ∀ (l : List Nat) (c e : Nat),
    linksB h (c :: l ++ [e]) = true →
    ∀ x ∈ c :: l, ∃ y, (h x).next = some y ∧ y ∈ l ++ [e] ∧
      (h y).prev = some x := by
  intro l
  induction l with
  | nil =>
    intro c e hl x hx
    have h2 : (h c).next = some e ∧ (h e).prev = some c := by
      simpa [linksB] using hl
    rcases List.mem_cons.1 hx with rfl | hx
    · exact ⟨e, h2.1, by simp, h2.2⟩
    · exact absurd hx (List.not_mem_nil x)
  | cons z t ih =>
    intro c e hl x hx
    have hl' : (h c).next = some z ∧ (h z).prev = some c ∧
        linksB h (z :: t ++ [e]) = true := by
      simpa [linksB, and_assoc] using hl
    rcases List.mem_cons.1 hx with rfl | hx
    · exact ⟨z, hl'.1, by simp, hl'.2.1⟩
    · obtain ⟨y, hy1, hy2, hy3⟩ := ih z e hl'.2.2 x hx
      exact ⟨y, hy1, by
        rcases List.mem_append.1 hy2 with hm | hm
        · exact List.mem_append_left _ (List.mem_cons_of_mem _ hm)
        · exact List.mem_append_right _ hm, hy3⟩

theorem links_backward (h : PhoHeap) : ∀ (l : List Nat) (c e : Nat),
    linksB h (c :: l ++ [e]) = true →
    ∀ y ∈ l ++ [e], ∃ x, (h y).prev = some x ∧ x ∈ c :: l ∧
      (h x).next = some y := by
  intro l
  induction l with
  | nil =>
    intro c e hl y hy
    have h2 : (h c).next = some e ∧ (h e).prev = some c := by
      simpa [linksB] using hl
    have hy' : y = e := by simpa using hy
    subst hy'
    exact ⟨c, h2.2, List.mem_cons_self _ _, h2.1⟩
  | cons z t ih =>
    intro c e hl y hy
    have hl' : (h c).next = some z ∧ (h z).prev = some c ∧
        linksB h (z :: t ++ [e]) = true := by
      simpa [linksB, and_assoc] using hl
    rcases List.mem_cons.1 hy with rfl | hy
    · exact ⟨c, hl'.2.1, List.mem_cons_self _ _, hl'.1⟩
    · obtain ⟨x, hx1, hx2, hx3⟩ := ih z e hl'.2.2 y hy
      exact ⟨x, hx1, List.mem_cons_of_mem _ hx2, hx3⟩

theorem ring_dllInv (h : PhoHeap) (c : Nat) (l : List Nat)
    (hr : linksB h (c :: l ++ [c]) = true) : dllInv h (c :: l) := by
  intro x hx
  constructor
  · obtain ⟨y, h1, h2, h3⟩ := links_forward h l c c hr x hx
    refine ⟨y, ?_, h1, h3⟩
    rcases List.mem_append.1 h2 with h' | h'
    · exact List.mem_cons_of_mem _ h'
    · have : y = c := by simpa using h'
      subst this
      exact List.mem_cons_self _ _
  · have hx' : x ∈ l ++ [c] := by
      rcases List.mem_cons.1 hx with rfl | hx
      · exact List.mem_append_right _ (List.mem_cons_self _ _)
      · exact List.mem_append_left _ hx
    obtain ⟨p, h1, h2, h3⟩ := links_backward h l c c hr x hx'
    exact ⟨p, h2, h1, h3⟩

theorem ring_splice (h' : PhoHeap) (r1 : Nat) (rs : List Nat)
    (hN : ∀ p ∈ zipTail (r1 :: rs), (h' p.1).next = some p.2)
    (hP : ∀ p ∈ zipTail (r1 :: rs), (h' p.2).prev = some p.1)
    (hlast : (h' (lastA rs r1)).next = some r1)
    (hfirst : (h' r1).prev = some (lastA rs r1)) :
    linksB h' (r1 :: rs ++ [r1]) = true := by
  rw [linksB_iff]
  intro p hp
  rw [zipTail_append_last] at hp
  rcases List.mem_append.1 hp with hp' | hp'
  · exact ⟨hN p hp', hP p hp'⟩
  · have : p = (lastA rs r1, r1) := by simpa using hp'
    subst this
    exact ⟨hlast, hfirst⟩

/-! ## Claim C7: ReallyDelete preserves the circular list invariant -/

/-- C7: every run of ReallyDelete keeps the list well formed: if the
filesystem unlink fails nothing changes at all; if it succeeds on a
circular list of k = rest.length + 1 ≥ 2 records the deleted record is
unlinked (no session end, no null dereference), the k-1 survivors again
satisfy `x.next.prev == x` and `x.prev.next == x` with `next`/`prev`
staying among the survivors, and when the deleted record was the anchor,
the anchor moves to the deleted record's successor. -/
theorem ReallyDelete_ring (h : PhoHeap) (first cur : Option Nat)
    (del : Nat) (rest : List Nat) (unlinkOk : Bool)
    (hne : rest ≠ []) (hnd : (del :: rest).Nodup)
    (hring : RingList h del rest) :
    (unlinkOk = false →
      ReallyDelete h first cur del unlinkOk =
        ⟨.unlinkFailed, h, first, cur⟩) ∧
    (unlinkOk = true →
      (ReallyDelete h first cur del unlinkOk).kind = .removed ∧
      dllInv (ReallyDelete h first cur del unlinkOk).heap rest ∧
      (first = some del → ∀ r1 t2, rest = r1 :: t2 →
        (ReallyDelete h first cur del unlinkOk).first = some r1)) := by
  constructor
  · intro hok
    subst hok
    unfold ReallyDelete
    rw [if_pos rfl]
  · intro hok
    subst hok
    rcases rest with _ | ⟨r1, rs⟩
    · exact absurd rfl hne
    have hP := (linksB_iff h _).1 hring
    have hzt := zipTail_append_last (r1 :: rs) del del
    have hdn : (h del).next = some r1 ∧ (h r1).prev = some del :=
      hP (del, r1) (by
        rw [hzt]
        exact List.mem_append_left _
          (by rw [zipTail_cons₂]; exact List.mem_cons_self _ _))
    have hlastp : (h (lastA rs r1)).next = some del ∧
        (h del).prev = some (lastA rs r1) :=
      hP (lastA (r1 :: rs) del, del) (by
        rw [hzt]
        exact List.mem_append_right _ (List.mem_cons_self _ _))
    have hsub : ∀ p ∈ zipTail (r1 :: rs),
        (h p.1).next = some p.2 ∧ (h p.2).prev = some p.1 := by
      intro p hp
      exact hP p (by
        rw [hzt]
        exact List.mem_append_left _
          (by rw [zipTail_cons₂]; exact List.mem_cons_of_mem _ hp))
    have hd_not : del ∉ r1 :: rs := (List.nodup_cons.1 hnd).1
    have hnd2 : (r1 :: rs).Nodup := (List.nodup_cons.1 hnd).2
    have hr1_not : r1 ∉ rs := (List.nodup_cons.1 hnd2).1
    have hdr1 : del ≠ r1 := by
      intro he
      exact hd_not (he ▸ List.mem_cons_self _ _)
    have hrm_mem : lastA rs r1 ∈ r1 :: rs := lastA_mem rs r1
    have hrm_ne_del : lastA rs r1 ≠ del := by
      intro he
      exact hd_not (he ▸ hrm_mem)
    have hc1 : ¬(some del = first ∧
        ((h del).next = first ∨ (h del).next = none)) := by
      rintro ⟨hf, hc | hc⟩
      · rw [hdn.1, ← hf] at hc
        exact hdr1 (Option.some.inj hc).symm
      · rw [hdn.1] at hc
        exact Option.noConfusion hc
    rcases rs with _ | ⟨r2, t⟩
    · -- two records: del and r1
      have hdp : (h del).prev = some r1 := hlastp.2
      have hc2 : (h del).prev = (h del).next := by rw [hdp, hdn.1]
      have hRD : ReallyDelete h first cur del true =
          ⟨.removed, setPrev (setNext h r1 (some r1)) r1 (some r1),
            some r1, some r1⟩ := by
        unfold ReallyDelete
        rw [if_neg (by simp), if_neg hc1, if_pos hc2, hdp]
        dsimp only
        rw [if_neg (show ¬(some del = some r1) by simp [hdr1])]
      refine ⟨by rw [hRD], ?_, ?_⟩
      · rw [hRD]
        intro x hx
        have hx1 : x = r1 := by simpa using hx
        subst hx1
        have hnx : ((setPrev (setNext h x (some x)) x (some x)) x).next =
            some x := by
          rw [setPrev_next, setNext_next_self]
        have hpx : ((setPrev (setNext h x (some x)) x (some x)) x).prev =
            some x := by
          rw [setPrev_prev_self]
        exact ⟨⟨x, List.mem_cons_self _ _, hnx, hpx⟩,
          ⟨x, List.mem_cons_self _ _, hpx, hnx⟩⟩
      · intro _ r1' t2' heq
        cases heq
        rw [hRD]
    · -- at least three records
      have hdp : (h del).prev = some (lastA (r2 :: t) r1) := hlastp.2
      have hr2 : (h r1).next = some r2 ∧ (h r2).prev = some r1 :=
        hsub (r1, r2) (by rw [zipTail_cons₂]; exact List.mem_cons_self _ _)
      have hrm_in : lastA (r2 :: t) r1 ∈ r2 :: t := lastA_mem t r2
      have hrm_ne_r1 : lastA (r2 :: t) r1 ≠ r1 := by
        intro he
        exact hr1_not (he ▸ hrm_in)
      have hdr2 : del ≠ r2 := by
        intro he
        exact hd_not (he ▸ List.mem_cons_of_mem _ (List.mem_cons_self _ _))
      have hr1r2 : r1 ≠ r2 := by
        intro he
        exact hr1_not (he ▸ List.mem_cons_self _ _)
      have hc2 : ¬((h del).prev = (h del).next) := by
        rw [hdp, hdn.1]
        intro hx
        exact hrm_ne_r1 (Option.some.inj hx)
      by_cases hb3 : (h del).next = first
      · -- deleting the record whose successor is the anchor
        have hfirst_eq : first = some r1 := by rw [← hb3, hdn.1]
        have hRD : ReallyDelete h first cur del true =
            ⟨.removed,
              setPrev (setNext h (lastA (r2 :: t) r1) (some r1)) r1
                (some (lastA (r2 :: t) r1)),
              some r1, some (lastA (r2 :: t) r1)⟩ := by
          unfold ReallyDelete
          rw [if_neg (by simp), if_neg hc1, if_neg hc2, if_pos hb3, hdp]
          dsimp only
          rw [hfirst_eq]
          dsimp only
          rw [if_neg (show ¬(some del = some r1) by simp [hdr1])]
        refine ⟨by rw [hRD], ?_, ?_⟩
        · rw [hRD]
          apply ring_dllInv _ r1 (r2 :: t)
          apply ring_splice
          · intro p hp
            rw [setPrev_next]
            by_cases hprm : p.1 = lastA (r2 :: t) r1
            · exfalso
              have hx := (hsub p hp).1
              rw [hprm, hlastp.1] at hx
              have : p.2 = del := (Option.some.inj hx).symm
              exact hd_not (this ▸ zipTail_snd_mem _ p hp)
            · rw [setNext_next_ne _ _ _ _ hprm]
              exact (hsub p hp).1
          · intro p hp
            by_cases hpr1 : p.2 = r1
            · exfalso
              have hx := (hsub p hp).2
              rw [hpr1, hdn.2] at hx
              have : p.1 = del := (Option.some.inj hx).symm
              exact hd_not (this ▸ zipTail_fst_mem _ p hp)
            · rw [setPrev_prev_ne _ _ _ _ hpr1, setNext_prev]
              exact (hsub p hp).2
          · rw [setPrev_next, setNext_next_self]
          · rw [setPrev_prev_self]
        · intro hf
          exfalso
          rw [hfirst_eq] at hf
          exact hdr1 (Option.some.inj hf).symm
      · -- general interior deletion
        have hh1 : ((setPrev h r1 (some (lastA (r2 :: t) r1))) del).prev =
            some (lastA (r2 :: t) r1) := by
          rw [setPrev_prev_ne _ _ _ _ hdr1, hdp]
        have hh3 : ((setNext (setPrev h r1 (some (lastA (r2 :: t) r1)))
            (lastA (r2 :: t) r1) (some r1)) r1).next = some r2 := by
          rw [setNext_next_ne _ _ _ _ (Ne.symm hrm_ne_r1), setPrev_next]
          exact hr2.1
        have hRD : ReallyDelete h first cur del true =
            ⟨.removed,
              setPrev (setNext (setPrev h r1 (some (lastA (r2 :: t) r1)))
                (lastA (r2 :: t) r1) (some r1)) r2 (some r1),
              if some del = first then
                ((setPrev (setNext (setPrev h r1
                    (some (lastA (r2 :: t) r1)))
                  (lastA (r2 :: t) r1) (some r1)) r2 (some r1)) del).next
              else first,
              some r1⟩ := by
          unfold ReallyDelete
          rw [if_neg (by simp), if_neg hc1, if_neg hc2, if_neg hb3, hdn.1]
          dsimp only
          rw [hdp, if_neg (show ¬(((setPrev h r1
              (some (lastA (r2 :: t) r1))) del).prev = none) from by
            rw [hh1]; simp)]
          rw [hh1]
          dsimp only
          rw [if_neg (show ¬(((setNext (setPrev h r1
              (some (lastA (r2 :: t) r1))) (lastA (r2 :: t) r1)
              (some r1)) r1).next = none) from by rw [hh3]; simp)]
          rw [hh3]
        refine ⟨by rw [hRD], ?_, ?_⟩
        · rw [hRD]
          apply ring_dllInv _ r1 (r2 :: t)
          apply ring_splice
          · intro p hp
            rw [setPrev_next]
            by_cases hprm : p.1 = lastA (r2 :: t) r1
            · exfalso
              have hx := (hsub p hp).1
              rw [hprm, hlastp.1] at hx
              have : p.2 = del := (Option.some.inj hx).symm
              exact hd_not (this ▸ zipTail_snd_mem _ p hp)
            · rw [setNext_next_ne _ _ _ _ hprm, setPrev_next]
              exact (hsub p hp).1
          · intro p hp
            by_cases hpr1 : p.2 = r1
            · exfalso
              have hx := (hsub p hp).2
              rw [hpr1, hdn.2] at hx
              have : p.1 = del := (Option.some.inj hx).symm
              exact hd_not (this ▸ zipTail_fst_mem _ p hp)
            · by_cases hpr2 : p.2 = r2
              · have hx := (hsub p hp).2
                rw [hpr2, hr2.2] at hx
                have hp1 : p.1 = r1 := (Option.some.inj hx).symm
                rw [hpr2, hp1, setPrev_prev_self]
              · rw [setPrev_prev_ne _ _ _ _ hpr2, setNext_prev,
                  setPrev_prev_ne _ _ _ _ hpr1]
                exact (hsub p hp).2
          · rw [setPrev_next, setNext_next_self]
          · rw [setPrev_prev_ne _ _ _ _ hr1r2, setNext_prev,
              setPrev_prev_self]
        · intro hf r1' t2' heq
          cases heq
          rw [hRD]
          dsimp only
          rw [if_pos hf.symm, setPrev_next,
            setNext_next_ne _ _ _ _ (Ne.symm hrm_ne_del), setPrev_next,
            hdn.1]

/-- C7 witness: deleting record 0 from the concrete ring 0 → 1 → 2 → 0,
with record 0 the anchor: the two survivors form a well-linked list and
the anchor moves to record 1. -/
theorem ReallyDelete_ring_witness :
    (ReallyDelete heap3 (some 0) none 0 true).kind = DelKind.removed ∧
      dllInv (ReallyDelete heap3 (some 0) none 0 true).heap [1, 2] ∧
      (ReallyDelete heap3 (some 0) none 0 true).first = some 1 := by
  have h := (ReallyDelete_ring heap3 (some 0) none 0 [1, 2] true
    (by decide) (by decide) (by decide)).2 rfl
  exact ⟨h.1, h.2.1, h.2.2 rfl 1 [2] rfl⟩

/-! ## Claim C8: forward navigation around the list -/

theorem NextImage_one_step (h : PhoHeap) (a c : Nat) :
    NextImage h (some a) (fun _ => true) 1 (some c) =
      match (h c).next with
      | none => (some c, -1)
      | some nx => if nx = a then (some c, -1) else (some nx, 0) := by
  rcases hn : (h c).next with _ | nx
  · simp [NextImage, hn]
  · by_cases hna : nx = a
    · simp [NextImage, hn, hna]
    · simp [NextImage, hn, hna]

theorem advanceCur_eq (h : PhoHeap) (a c : Nat) :
    advanceCur h a c =
      match (h c).next with
      | none => c
      | some nx => if nx = a then c else nx := by
  unfold advanceCur
  rw [NextImage_one_step]
  rcases hn : (h c).next with _ | nx
  · rfl
  · by_cases hna : nx = a <;> simp [hna]

theorem advRet_eq (h : PhoHeap) (a c : Nat) :
    advRet h a c =
      match (h c).next with
      | none => -1
      | some nx => if nx = a then -1 else 0 := by
  unfold advRet
  rw [NextImage_one_step]
  rcases hn : (h c).next with _ | nx
  · rfl
  · by_cases hna : nx = a <;> simp [hna]

theorem adv_walk (h : PhoHeap) (a : Nat) : ∀ (t : List Nat) (c : Nat),
    linksB h (c :: t ++ [a]) = true → a ∉ c :: t →
    (advanceCur h a)^[t.length] c = lastA t c ∧
      (h (lastA t c)).next = some a ∧
      ∀ k, k < t.length → advRet h a ((advanceCur h a)^[k] c) = 0 := by
  intro t
  induction t with
  | nil =>
    intro c hl _
    have h2 : (h c).next = some a ∧ (h a).prev = some c := by
      simpa [linksB] using hl
    exact ⟨rfl, h2.1, fun k hk => absurd hk (by simp)⟩
  | cons x t2 ih =>
    intro c hl ha
    have hl' : (h c).next = some x ∧ (h x).prev = some c ∧
        linksB h (x :: t2 ++ [a]) = true := by
      simpa [linksB, and_assoc] using hl
    have hax : a ∉ x :: t2 := fun hm => ha (List.mem_cons_of_mem _ hm)
    have hxa : x ≠ a := fun he => ha
      (List.mem_cons_of_mem _ (he ▸ List.mem_cons_self _ _))
    have hstep : advanceCur h a c = x := by
      rw [advanceCur_eq, hl'.1]
      simp [hxa]
    obtain ⟨ih1, ih2, ih3⟩ := ih x hl'.2.2 hax
    refine ⟨?_, ih2, ?_⟩
    · show (advanceCur h a)^[t2.length + 1] c = _
      rw [Function.iterate_succ_apply, hstep]
      exact ih1
    · intro k hk
      cases k with
      | zero =>
        show advRet h a c = 0
        rw [advRet_eq, hl'.1]
        simp [hxa]
      | succ k2 =>
        rw [Function.iterate_succ_apply, hstep]
        exact ih3 k2 (by simpa using hk)

/-- C8 (amended): starting with the cursor at the anchor of a circular
list of N = rest.length + 1 records, with every load succeeding, each of
the first N-1 NextImage calls succeeds (returns 0) and moves the cursor
one record forward; the Nth call returns -1 (end of list) and leaves the
cursor on the LAST record, not back at the anchor — after N calls the
cursor sits on the last record, which is the anchor itself only for a
single-record list.  Forward navigation never wraps past the anchor. -/
theorem NextImage_cycle (h : PhoHeap) (a : Nat) (rest : List Nat)
    (hnd : (a :: rest).Nodup) (hring : RingList h a rest) :
    (advanceCur h a)^[rest.length + 1] a = lastA rest a ∧
      advRet h a ((advanceCur h a)^[rest.length] a) = -1 ∧
      (∀ k, k < rest.length → advRet h a ((advanceCur h a)^[k] a) = 0) ∧
      (lastA rest a = a ↔ rest = []) := by
  rcases rest with _ | ⟨r1, rs⟩
  · have h2 : (h a).next = some a ∧ (h a).prev = some a := by
      simpa [RingList, linksB] using hring
    have hfix : advanceCur h a a = a := by
      rw [advanceCur_eq, h2.1]
      simp
    refine ⟨?_, ?_, fun k hk => absurd hk (by simp), by simp [lastA]⟩
    · show (advanceCur h a)^[1] a = a
      rw [Function.iterate_one]
      exact hfix
    · show advRet h a a = -1
      rw [advRet_eq, h2.1]
      simp
  · have hl' : (h a).next = some r1 ∧ (h r1).prev = some a ∧
        linksB h (r1 :: rs ++ [a]) = true := by
      simpa [RingList, linksB, and_assoc] using hring
    have hna : a ∉ r1 :: rs := by
      intro hm
      have := (List.nodup_cons.1 hnd).1
      exact this hm
    have har1 : r1 ≠ a := by
      intro he
      exact hna (he ▸ List.mem_cons_self _ _)
    have hstep : advanceCur h a a = r1 := by
      rw [advanceCur_eq, hl'.1]
      simp [har1]
    obtain ⟨w1, w2, w3⟩ := adv_walk h a rs r1 hl'.2.2 hna
    have hfix2 : advanceCur h a (lastA rs r1) = lastA rs r1 := by
      rw [advanceCur_eq, w2]
      simp
    refine ⟨?_, ?_, ?_, ?_⟩
    · show (advanceCur h a)^[rs.length + 1 + 1] a = _
      rw [Function.iterate_succ_apply, hstep,
        Function.iterate_succ_apply', w1, hfix2]
      rfl
    · show advRet h a ((advanceCur h a)^[rs.length + 1] a) = -1
      rw [Function.iterate_succ_apply, hstep, w1, advRet_eq, w2]
      simp
    · intro k hk
      cases k with
      | zero =>
        show advRet h a a = 0
        rw [advRet_eq, hl'.1]
        simp [har1]
      | succ k2 =>
        rw [Function.iterate_succ_apply, hstep]
        exact w3 k2 (by simpa using hk)
    · constructor
      · intro he
        exact absurd (he ▸ lastA_mem rs r1) hna
      · intro he
        exact absurd he (by simp)

/-- C8 witness: the amended navigation behaviour on the concrete
three-record ring 0 → 1 → 2 → 0. -/
theorem NextImage_cycle_witness :
    (advanceCur heap3 0)^[3] 0 = 2 ∧
      advRet heap3 0 ((advanceCur heap3 0)^[2] 0) = -1 ∧
      advRet heap3 0 ((advanceCur heap3 0)^[0] 0) = 0 := by
  have h := NextImage_cycle heap3 0 [1, 2] (by decide) (by decide)
  exact ⟨h.1, h.2.1, h.2.2.1 0 (by decide)⟩

/-- C8 counterexample to the claim as stated: on the two-record circular
list 0 → 1 → 0 (a genuine ring), calling NextImage twice starting from
the anchor does NOT return the cursor to the anchor — NextImage refuses
to wrap (`gCurImage->next == gFirstImage` returns -1), so the cursor
stays on record 1. -/
theorem NextImage_cycle_counterexample :
    RingList heap2 0 [1] ∧ (advanceCur heap2 0)^[2] 0 ≠ 0 := by
  constructor
  · decide
  · decide

/-! ## Claim C9: the slideshow arming condition -/

/-- C9 (evaluating the code at the failing input): ShowImage's arming
condition `gDelaySeconds > 0 && gPendingTimeout == 0 &&
(gCurImage->next != 0 || gCurImage->next != gFirstImage)` is TRUE for a
single-record list (cur.next == gFirstImage == the record, both
non-null, delay 3, no pending timeout): the timer IS armed, because the
third conjunct is a tautology for any non-null `next` — `||` where the
more-than-one-record check needs `&&`.  The delay and pending guards do
behave as the claim states. -/
theorem ShowImageArm_single_record :
    ShowImageArm 3 0 (some 0) (some 0) = true ∧
      ShowImageArm 0 0 (some 0) (some 0) = false ∧
      ShowImageArm 3 7 (some 0) (some 0) = false := by
  decide

/-! ## Claim C10: a zero-delay timer fire wedges the slideshow -/

theorem slide_invariant_aux : ∀ (evs : List SlideEv) (s : SlideState),
    s.pending ≠ 0 → s.armed = false →
    (evs.foldl slideStep s).pending = s.pending ∧
      (evs.foldl slideStep s).armed = false := by
  intro evs
  induction evs with
  | nil => intro s _ h2; exact ⟨rfl, h2⟩
  | cons e t ih =>
    intro s h1 h2
    have hs : (slideStep s e).pending = s.pending ∧
        (slideStep s e).armed = false := by
      cases e with
      | setDelay d => exact ⟨rfl, h2⟩
      | display nx fst id =>
        have harm : ShowImageArm s.delay s.pending nx fst = false := by
          unfold ShowImageArm
          simp [h1]
        simp only [slideStep, harm, Bool.false_eq_true, if_false]
        exact ⟨trivial, h2⟩
      | fire nx fst id =>
        simp only [slideStep]
        rw [if_pos h2]
        exact ⟨rfl, h2⟩
    obtain ⟨hp, ha⟩ := hs
    have hrec := ih (slideStep s e) (by rw [hp]; exact h1) ha
    refine ⟨?_, ?_⟩
    · rw [List.foldl_cons, hrec.1, hp]
    · rw [List.foldl_cons]
      exact hrec.2

/-- C10: if the timeout callback fires while the configured delay is
zero, it returns at once: no advance happens and the pending-timeout
flag is left at its nonzero value, only the timer source dies.  From
then on, whatever events occur — displays, delay changes (including
setting the delay positive again), further (impossible) fires — the
pending flag never returns to zero and no slideshow timeout is ever
armed again, because ShowImage only arms when the flag is zero. -/
theorem DelayTimer_zero_delay_lockout (s : SlideState)
    (nx fst : Option Nat) (id : Int)
    (h1 : s.armed = true) (h2 : s.delay = 0) (h3 : s.pending ≠ 0) :
    slideStep s (.fire nx fst id) = { s with armed := false } ∧
      ∀ evs : List SlideEv,
        (evs.foldl slideStep (slideStep s (.fire nx fst id))).pending =
          s.pending ∧
        (evs.foldl slideStep (slideStep s (.fire nx fst id))).armed =
          false := by
  have hstep : slideStep s (.fire nx fst id) = { s with armed := false } := by
    simp only [slideStep]
    rw [if_neg (by rw [h1]; simp), if_pos h2]
  refine ⟨hstep, ?_⟩
  intro evs
  rw [hstep]
  have hrec := slide_invariant_aux evs { s with armed := false } h3 rfl
  exact ⟨hrec.1, hrec.2⟩

/-- C10 witness: a concrete armed state with delay 0 and pending id 7;
after the degenerate fire, a later positive delay, a display, and
another fire event leave pending at 7 and nothing armed. -/
theorem DelayTimer_zero_delay_lockout_witness :
    slideStep ⟨0, 7, true, 0⟩ (.fire (some 0) (some 0) 9) =
        ⟨0, 7, false, 0⟩ ∧
      (([SlideEv.setDelay 3, SlideEv.display (some 0) (some 0) 9,
          SlideEv.fire (some 0) (some 0) 11].foldl slideStep
          (slideStep ⟨0, 7, true, 0⟩ (.fire (some 0) (some 0) 9))).pending
          = 7 ∧
        ([SlideEv.setDelay 3, SlideEv.display (some 0) (some 0) 9,
          SlideEv.fire (some 0) (some 0) 11].foldl slideStep
          (slideStep ⟨0, 7, true, 0⟩ (.fire (some 0) (some 0) 9))).armed
          = false) := by
  have h := DelayTimer_zero_delay_lockout ⟨0, 7, true, 0⟩ (some 0) (some 0)
    9 rfl rfl (by decide)
  exact ⟨h.1, h.2 [SlideEv.setDelay 3, SlideEv.display (some 0) (some 0) 9,
    SlideEv.fire (some 0) (some 0) 11]⟩
